import Mathlib

/-!
Verification of the CDeck-ESP32 supervisor core (src/main.c).

The development shallowly embeds the supervisor: the mutable state record,
the cJSON value model and the object-item accessors it uses, the envelope
builders, the per-line command processor, the UART line framer, the startup
sequence, and a small interleaving machine for the mutex-guarded state
store.  Sending a JSON object over the UART is modelled by appending the
object to an output list; logging is not modelled.  Timestamps from
esp_timer_get_time are modelled as natural numbers of microseconds passed
in explicitly, in the order the C code reads the timer.
-/

/-! ## JSON values (model of the cJSON tree) -/

mutual
/-- Model of a cJSON value tree.  Object fields form a linked list of
keyed children, mirroring the child list cJSON uses. -/
inductive Json where
  | null
  | jbool (b : Bool)
  | jnum (q : Rat)
  | jstr (s : String)
  | jarr (items : JsonArr)
  | jobj (fields : JsonObj)
deriving DecidableEq
/-- Linked list of array elements of a cJSON value. -/
inductive JsonArr where
  | nil
  | cons (hd : Json) (tl : JsonArr)
deriving DecidableEq
/-- Linked list of keyed children of a cJSON object. -/
inductive JsonObj where
  | nil
  | cons (key : String) (val : Json) (tl : JsonObj)
deriving DecidableEq
end

/-- Build an object field list from an ordinary Lean list. -/
def JsonObj.ofList : List (String × Json) → JsonObj
  | [] => .nil
  | (k, v) :: tl => .cons k v (JsonObj.ofList tl)

/-- Build a JSON object value from a list of key-value pairs. -/
def mkObj (l : List (String × Json)) : Json := .jobj (JsonObj.ofList l)

/-- ASCII lower-casing of one character, as C tolower does in the C locale;
used by the case-insensitive key comparison in cJSON_GetObjectItem. -/
def ascii_tolower (c : Char) : Char :=
  if 'A' ≤ c ∧ c ≤ 'Z' then Char.ofNat (c.toNat + 32) else c

/-- Case-insensitive string equality, as cJSON case_insensitive_strcmp. -/
def ascii_lower_eq (a b : String) : Bool :=
  a.toList.map ascii_tolower == b.toList.map ascii_tolower

/-- Walk an object child list and return the first field whose key matches,
case-sensitively or case-insensitively according to the flag. -/
def get_object_item : JsonObj → String → Bool → Option Json
  | .nil, _, _ => none
  | .cons k v tl, key, cs =>
    if (if cs then k == key else ascii_lower_eq k key) then some v
    else get_object_item tl key cs

/-- cJSON_GetObjectItem: case-insensitive lookup; null for non-objects. -/
def cJSON_GetObjectItem (j : Json) (key : String) : Option Json :=
  match j with
  | .jobj fs => get_object_item fs key false
  | _ => none

/-- cJSON_GetObjectItemCaseSensitive: case-sensitive lookup. -/
def cJSON_GetObjectItemCaseSensitive (j : Json) (key : String) : Option Json :=
  match j with
  | .jobj fs => get_object_item fs key true
  | _ => none

/-- cJSON_IsString applied to a possibly-null item pointer. -/
def cJSON_IsString : Option Json → Bool
  | some (.jstr _) => true
  | _ => false

/-! ## Supervisor state (src/main.c lines 29-98) -/

/-- supervisor_switch_state_t: six independent boolean switches. -/
structure supervisor_switch_state_t where
  lte : Bool
  wifi : Bool
  bt : Bool
  bridge_enable : Bool
  lid_open : Bool
  charger_online : Bool
deriving DecidableEq

/-- supervisor_state_t: the full mutable status record.  C ints become Int,
the float temperature becomes Rat, the uint64 timestamp becomes Nat. -/
structure supervisor_state_t where
  battery_pct : Int
  pack_mv : Int
  pack_ma : Int
  mcu_temp_c : Rat
  unread_ext : Int
  heltec : String
  mcu : String
  poweroff_armed : Bool
  last_mesh_event_us : Nat
  switches : supervisor_switch_state_t
deriving DecidableEq

/-- The default temperature 36.5 degrees as the rational 73/2, written as
an explicit fraction in lowest terms so that equality on states computes. -/
def default_mcu_temp : Rat := ⟨73, 2, by decide, by decide⟩

/-- supervisor_state_init: the fixed power-on defaults, with the boot-time
timestamp read from esp_timer_get_time passed in as boot_us. -/
def supervisor_state_init (boot_us : Nat) : supervisor_state_t :=
  { battery_pct := 78
    pack_mv := 11750
    pack_ma := -420
    mcu_temp_c := default_mcu_temp
    unread_ext := 0
    heltec := "ok"
    mcu := "proto-0.1"
    poweroff_armed := false
    last_mesh_event_us := boot_us
    switches :=
      { lte := true
        wifi := false
        bt := true
        bridge_enable := true
        lid_open := false
        charger_online := true } }

/-- INT_MAX for the 32-bit int of the target. -/
def INT_MAX : Int := 2147483647

/-- uptime_seconds: whole seconds in a microsecond timestamp. -/
def uptime_seconds (now_us : Nat) : Nat := now_us / 1000000

/-- compute_last_msg_age (src/main.c lines 115-122). -/
def compute_last_msg_age (state : supervisor_state_t) (now_us : Nat) : Int :=
  if state.last_mesh_event_us = 0 ∨ now_us < state.last_mesh_event_us then 0
  else
    let delta : Nat := now_us - state.last_mesh_event_us
    let seconds : Nat := delta / 1000000
    if (seconds : Int) > INT_MAX then INT_MAX else (seconds : Int)

/-! ## Envelope builders (src/main.c lines 124-261) -/

/-- build_switch_object: the six boolean fields. -/
def build_switch_object (sw : supervisor_switch_state_t) : Json :=
  mkObj
    [("lte", .jbool sw.lte),
     ("wifi", .jbool sw.wifi),
     ("bt", .jbool sw.bt),
     ("bridge_enable", .jbool sw.bridge_enable),
     ("lid_open", .jbool sw.lid_open),
     ("charger_online", .jbool sw.charger_online)]

/-- append_telemetry_fields: the fields appended to a status or telemetry
object, computed from a state snapshot and the current timestamp. -/
def append_telemetry_fields (state : supervisor_state_t) (now_us : Nat)
    (include_switch : Bool) : List (String × Json) :=
  [("battery_pct", .jnum (state.battery_pct : Rat)),
   ("pack_mv", .jnum (state.pack_mv : Rat)),
   ("pack_ma", .jnum (state.pack_ma : Rat)),
   ("mcu_temp_c", .jnum state.mcu_temp_c),
   ("unread_ext", .jnum (state.unread_ext : Rat)),
   ("last_msg_age_s", .jnum (compute_last_msg_age state now_us : Rat)),
   ("heltec", .jstr state.heltec),
   ("mcu", .jstr state.mcu),
   ("uptime_s", .jnum ((now_us / 1000000 : Nat) : Rat))]
  ++ (if include_switch then [("switch", build_switch_object state.switches)] else [])

/-- Optional id field at the front of a reply envelope. -/
def id_field : Option String → List (String × Json)
  | some s => [("id", .jstr s)]
  | none => []

/-- send_error_reply: error envelope. -/
def send_error_reply (id : Option String) (error : String) : Json :=
  mkObj (id_field id ++ [("ok", .jbool false), ("error", .jstr error)])

/-- send_basic_ok: plain ok reply. -/
def send_basic_ok (id : Option String) : Json :=
  mkObj (id_field id ++ [("ok", .jbool true)])

/-- send_status_response: ok reply with embedded status object. -/
def send_status_response (id : Option String) (state : supervisor_state_t)
    (now_us : Nat) : Json :=
  mkObj (id_field id ++
    [("ok", .jbool true),
     ("status", mkObj (append_telemetry_fields state now_us true))])

/-- send_switch_response: ok reply with embedded switch object. -/
def send_switch_response (id : Option String) (sw : supervisor_switch_state_t) : Json :=
  mkObj (id_field id ++ [("ok", .jbool true), ("switch", build_switch_object sw)])

/-- send_telemetry_event: unsolicited telemetry event. -/
def send_telemetry_event (state : supervisor_state_t) (now_us : Nat) : Json :=
  mkObj (("event", .jstr "telemetry") :: append_telemetry_fields state now_us true)

/-- send_switch_event: unsolicited switch event. -/
def send_switch_event (sw : supervisor_switch_state_t) : Json :=
  mkObj [("event", .jstr "switch"), ("switch", build_switch_object sw)]

/-- send_poweroff_reply: ok reply with poweroff_ok flag. -/
def send_poweroff_reply (id : Option String) : Json :=
  mkObj (id_field id ++ [("ok", .jbool true), ("poweroff_ok", .jbool true)])

/-! ## Command handlers and the per-line processor (src/main.c lines 263-332) -/

/-- handle_clear_unread: zero the unread count and refresh the mesh-event
timestamp to the timer value read inside the handler. -/
def handle_clear_unread (now_us : Nat) (st : supervisor_state_t) : supervisor_state_t :=
  { st with unread_ext := 0, last_mesh_event_us := now_us }

/-- handle_arm_poweroff: latch the poweroff flag. -/
def handle_arm_poweroff (st : supervisor_state_t) : supervisor_state_t :=
  { st with poweroff_armed := true }

/-- Extract the optional request id: present only when the id field exists
and is a string (process_command line 287). -/
def extract_id (root : Json) : Option String :=
  match cJSON_GetObjectItemCaseSensitive root "id" with
  | some (.jstr s) => some s
  | _ => none

/-- Dispatch on the exact cmd string (process_command lines 290-314).
now_us is the timer value read at line 289; second_us is the value of the
second timer read a branch may perform (clear_unread refresh, ping uptime). -/
def process_dispatch (cmd : String) (id : Option String) (st : supervisor_state_t)
    (now_us second_us : Nat) : supervisor_state_t × List Json :=
  if cmd = "get_status" then (st, [send_status_response id st now_us])
  else if cmd = "get_switches" then (st, [send_switch_response id st.switches])
  else if cmd = "clear_unread" then (handle_clear_unread second_us st, [send_basic_ok id])
  else if cmd = "arm_poweroff" then (handle_arm_poweroff st, [send_poweroff_reply id])
  else if cmd = "ping" then
    (st, [mkObj (id_field id ++
      [("ok", .jbool true), ("uptime_s", .jnum ((uptime_seconds second_us : Nat) : Rat))])])
  else (st, [send_error_reply id "unknown_cmd"])

/-- process_command: require a string cmd (case-sensitive lookup), else log
and return without replying; otherwise extract the optional id and dispatch. -/
def process_command (root : Json) (st : supervisor_state_t)
    (now_us second_us : Nat) : supervisor_state_t × List Json :=
  match cJSON_GetObjectItemCaseSensitive root "cmd" with
  | some (.jstr cmd) => process_dispatch cmd (extract_id root) st now_us second_us
  | _ => (st, [])

/-- process_line: skip empty lines, parse (the external cJSON_Parse is the
parse argument), drop unparseable lines, drop parsed values with no cmd
member (case-insensitive existence check at line 326), else process. -/
def process_line (parse : String → Option Json) (line : String)
    (st : supervisor_state_t) (now_us second_us : Nat) : supervisor_state_t × List Json :=
  if line = "" then (st, [])
  else
    match parse line with
    | none => (st, [])
    | some root =>
      if (cJSON_GetObjectItem root "cmd").isSome then
        process_command root st now_us second_us
      else (st, [])

/-! ## UART line framer (src/main.c lines 334-362) -/

/-- Usable line buffer size: sizeof line in uart_reader_task. -/
def SUPV_LINE_BUF : Nat := 512

/-- Accumulated framer data: the pending line buffer, the complete lines
delivered to process_line so far, and the number of overflow drops logged. -/
structure FramerAcc where
  buf : List Char
  lines : List (List Char)
  overflows : Nat
deriving DecidableEq

/-- One byte of the uart_reader_task loop: skip CR; on LF deliver the
buffer when non-empty and reset it; when the buffer is full drop it and
log an overflow; otherwise append the byte. -/
def uart_reader_step (acc : FramerAcc) (byte : Char) : FramerAcc :=
  if byte = '\r' then acc
  else if byte = '\n' then
    { acc with
      buf := [],
      lines := acc.lines ++ (if acc.buf.length > 0 then [acc.buf] else []) }
  else if acc.buf.length + 1 ≥ SUPV_LINE_BUF then
    { acc with buf := [], overflows := acc.overflows + 1 }
  else
    { acc with buf := acc.buf ++ [byte] }

/-- Frame an input byte sequence into delivered lines. -/
def uart_reader_frames (input : List Char) : FramerAcc :=
  input.foldl uart_reader_step { buf := [], lines := [], overflows := 0 }

/-- Process delivered lines in order.  The clock maps the index of a line
to the pair of timer values the processing of that line may read. -/
def run_lines (parse : String → Option Json) (clock : Nat → Nat × Nat) :
    List (List Char) → supervisor_state_t → supervisor_state_t × List Json
  | [], st => (st, [])
  | l :: ls, st =>
    let r1 := process_line parse (String.mk l) st (clock 0).1 (clock 0).2
    let r2 := run_lines parse (fun i => clock (i + 1)) ls r1.1
    (r2.1, r1.2 ++ r2.2)

/-- uart_reader_task on a finite input: frame the bytes, process each
complete line, and report the final state, the wire output and the number
of overflow drops. -/
def uart_reader_run (parse : String → Option Json) (clock : Nat → Nat × Nat)
    (input : List Char) (st : supervisor_state_t) :
    supervisor_state_t × List Json × Nat :=
  let acc := uart_reader_frames input
  let r := run_lines parse clock acc.lines st
  (r.1, r.2, acc.overflows)

/-! ## Startup sequence (app_main, src/main.c lines 375-382) -/

/-- Events observable around startup: the app_main actions in program
order, plus the moment each created task first runs. -/
inductive SysEvent where
  | stateInit
  | uartInit
  | createReader
  | createTelemetry
  | readerStarts
  | telemetryStarts
  | emitSwitch (j : Json)
deriving DecidableEq

/-- True exactly on emitSwitch events. -/
def isEmit : SysEvent → Bool
  | .emitSwitch _ => true
  | _ => false

/-- True exactly on the readerStarts event. -/
def isReaderStart : SysEvent → Bool
  | .readerStarts => true
  | _ => false

/-- app_main in program order: init state, init uart, create the reader
task, create the telemetry task, then emit the one switch event built from
the initial switch configuration. -/
def app_main_program (boot_us : Nat) : List SysEvent :=
  [.stateInit, .uartInit, .createReader, .createTelemetry,
   .emitSwitch (send_switch_event (supervisor_state_init boot_us).switches)]

/-- Interleaves l r m: m is an order-preserving merge of l and r.  A
startup trace is any interleaving of the app_main program order with the
task-start events, since a created task may first run at any later point. -/
inductive Interleaves {α : Type} : List α → List α → List α → Prop where
  | nil : Interleaves [] [] []
  | left {x : α} {xs ys zs : List α} :
      Interleaves xs ys zs → Interleaves (x :: xs) ys (x :: zs)
  | right {y : α} {xs ys zs : List α} :
      Interleaves xs ys zs → Interleaves xs (y :: ys) (y :: zs)

/-! ## The lock-guarded state store as an interleaving machine
(supervisor_state_snapshot, handle_clear_unread, handle_arm_poweroff,
src/main.c lines 58-73 and 263-274).

Each critical section is broken into micro operations: taking and giving
the mutex, single-field writes to the shared record, and single-field
copies from the shared record into a task-local snapshot buffer, so that a
whole-record copy is not atomic by construction; atomicity has to come
from the mutex.  The ghost hist field records the shared record at the end
of every critical section: the complete states of the mutation history. -/

/-- Micro operations of one critical section. -/
inductive MicroOp where
  | acquire
  | release
  | applyW (f : supervisor_state_t → supervisor_state_t)
  | copyF (g : supervisor_state_t → supervisor_state_t → supervisor_state_t)
  | finish

/-- Local data of one execution context. -/
structure ThreadState where
  pending : List MicroOp
  buf : supervisor_state_t
  results : List supervisor_state_t

/-- Whole-machine configuration: the shared record, the mutex owner, the
ghost mutation history, and the two contexts. -/
structure MachineConfig where
  shared : supervisor_state_t
  lockOwner : Option Bool
  hist : List supervisor_state_t
  thr : Bool → ThreadState

/-- The operations the two contexts may invoke on the state store. -/
inductive SupvOp where
  | snapshot
  | clearUnread (t_us : Nat)
  | armPoweroff

/-- Field writes of handle_clear_unread, one per store instruction. -/
def clear_fns (t_us : Nat) : List (supervisor_state_t → supervisor_state_t) :=
  [fun s => { s with unread_ext := 0 },
   fun s => { s with last_mesh_event_us := t_us }]

/-- Field write of handle_arm_poweroff. -/
def arm_fns : List (supervisor_state_t → supervisor_state_t) :=
  [fun s => { s with poweroff_armed := true }]

/-- Field-by-field copy of the shared record into the snapshot buffer. -/
def copy_fns :
    List (supervisor_state_t → supervisor_state_t → supervisor_state_t) :=
  [fun b s => { b with battery_pct := s.battery_pct },
   fun b s => { b with pack_mv := s.pack_mv },
   fun b s => { b with pack_ma := s.pack_ma },
   fun b s => { b with mcu_temp_c := s.mcu_temp_c },
   fun b s => { b with unread_ext := s.unread_ext },
   fun b s => { b with heltec := s.heltec },
   fun b s => { b with mcu := s.mcu },
   fun b s => { b with poweroff_armed := s.poweroff_armed },
   fun b s => { b with last_mesh_event_us := s.last_mesh_event_us },
   fun b s => { b with switches := s.switches }]

/-- Compile one state-store operation to its critical section. -/
def compileOp : SupvOp → List MicroOp
  | .snapshot => .acquire :: (copy_fns.map .copyF ++ [.finish, .release])
  | .clearUnread t_us => .acquire :: ((clear_fns t_us).map .applyW ++ [.release])
  | .armPoweroff => .acquire :: (arm_fns.map .applyW ++ [.release])

/-- Compile a whole program of state-store operations. -/
def compileProg : List SupvOp → List MicroOp
  | [] => []
  | op :: ops => compileOp op ++ compileProg ops

/-- One scheduler step: run the next micro operation of the chosen context.
Taking the mutex blocks while it is held; a blocked context simply does
not advance.  Field writes and copies execute unconditionally: nothing in
the machine itself stops an ill-formed program from touching the shared
record without the mutex. -/
def machine_step (c : MachineConfig) (who : Bool) : MachineConfig :=
  match (c.thr who).pending with
  | [] => c
  | .acquire :: rest =>
    if c.lockOwner = none then
      { c with
        lockOwner := some who,
        thr := Function.update c.thr who { c.thr who with pending := rest } }
    else c
  | .release :: rest =>
    if c.lockOwner = some who then
      { c with
        lockOwner := none,
        hist := c.hist ++ [c.shared],
        thr := Function.update c.thr who { c.thr who with pending := rest } }
    else c
  | .applyW f :: rest =>
    { c with
      shared := f c.shared,
      thr := Function.update c.thr who { c.thr who with pending := rest } }
  | .copyF g :: rest =>
    { c with
      thr := Function.update c.thr who
        { c.thr who with pending := rest, buf := g (c.thr who).buf c.shared } }
  | .finish :: rest =>
    { c with
      thr := Function.update c.thr who
        { c.thr who with
          pending := rest,
          results := (c.thr who).results ++ [(c.thr who).buf] } }

/-- Run a finite schedule. -/
def machine_run (c : MachineConfig) : List Bool → MachineConfig
  | [] => c
  | w :: ws => machine_run (machine_step c w) ws

/-- Initial configuration: both contexts hold compiled programs, the mutex
is free, the history holds the initial record, and the snapshot buffers
hold arbitrary junk (uninitialised stack memory in the C code). -/
def machine_init (p0 p1 : List SupvOp) (init b0 b1 : supervisor_state_t) :
    MachineConfig :=
  { shared := init
    lockOwner := none
    hist := [init]
    thr := fun i =>
      if i then { pending := compileProg p1, buf := b1, results := [] }
      else { pending := compileProg p0, buf := b0, results := [] } }

/-! ## Concrete inputs used in witnesses and counterexamples -/

/-- Characters of a line holding the JSON text of a plain ping request. -/
def ping_chars : List Char := "\x7b\"cmd\":\"ping\"\x7d".toList

/-- The ping request line as a string. -/
def ping_line : String := String.mk ping_chars

/-- 600 letters a, a newline, then a well-formed ping line and a newline:
the oversized-line scenario of the spec followed by a good command. -/
def c4_input : List Char :=
  List.replicate 600 'a' ++ ['\n'] ++ ping_chars ++ ['\n']

/-- Characters 513 to 600 of the counterexample line: a complete ping
request with a 66-character id, exactly 88 bytes long. -/
def c4_cx_tail_chars : List Char :=
  "\x7b\"cmd\":\"ping\",\"id\":\"".toList ++ List.replicate 66 'x' ++ "\"\x7d".toList

/-- The counterexample tail as a string. -/
def c4_cx_line : String := String.mk c4_cx_tail_chars

/-- A 600-byte line with no newline byte, followed by one newline: 512
letters a and then a complete 88-byte ping request. -/
def c4_cx_input : List Char :=
  List.replicate 512 'a' ++ c4_cx_tail_chars ++ ['\n']

/-- Modelled from the spec: the JSON text codec is an external collaborator
used as a black-box encode/decode capability, so cJSON_Parse is not part of
this embedding.  For the concrete counterexample run we fix the codec on
the single line it is handed, giving it the value any JSON parser gives
that text. -/
def c4_cx_parse : String → Option Json := fun s =>
  if s = c4_cx_line then
    some (mkObj [("cmd", Json.jstr "ping"),
                 ("id", Json.jstr (String.mk (List.replicate 66 'x')))])
  else none

/-- A request naming an unrecognised command. -/
def frob_request : Json :=
  mkObj [("cmd", Json.jstr "frobnicate"), ("id", Json.jstr "z")]

/-- A get_status request carrying the string id abc. -/
def status_request : Json :=
  mkObj [("cmd", Json.jstr "get_status"), ("id", Json.jstr "abc")]

/-- A ping request whose id field is a number, not a string. -/
def ping_request_numeric_id : Json :=
  mkObj [("cmd", Json.jstr "ping"), ("id", Json.jnum 5)]

/-- A plain ping request object. -/
def ping_request : Json := mkObj [("cmd", Json.jstr "ping")]

/-- A startup trace in which the reader task begins running right after it
is created, before the telemetry task exists and before the switch event
is emitted. -/
def c9_trace : List SysEvent :=
  [.stateInit, .uartInit, .createReader, .readerStarts,
   .createTelemetry, .telemetryStarts,
   .emitSwitch (send_switch_event (supervisor_state_init 0).switches)]

/-- Arbitrary junk contents for an uninitialised snapshot buffer. -/
def c8_demo_junk : supervisor_state_t :=
  { battery_pct := -1
    pack_mv := 0
    pack_ma := 0
    mcu_temp_c := 0
    unread_ext := 99
    heltec := "junk"
    mcu := "junk"
    poweroff_armed := true
    last_mesh_event_us := 12345
    switches :=
      { lte := false
        wifi := true
        bt := false
        bridge_enable := false
        lid_open := true
        charger_online := false } }

/-- Demo machine: context 0 clears unread at time 7, context 1 takes one
snapshot; buffers start as junk. -/
def c8_demo_config : MachineConfig :=
  machine_init [SupvOp.clearUnread 7] [SupvOp.snapshot]
    (supervisor_state_init 3) c8_demo_junk c8_demo_junk

/-- Demo schedule: the snapshot critical section runs to completion, then
the mutation runs. -/
def c8_demo_sched : List Bool :=
  [true, true, true, true, true, true, true, true, true, true,
   true, true, true, false, false, false, false]

/-- The sequence of states produced by folding clear-unread handlers over
a list of timer readings (the state after every call). -/
def clear_seq (ts : List Nat) (st : supervisor_state_t) : supervisor_state_t :=
  ts.foldl (fun s t => handle_clear_unread t s) st

/-- The successive values written to last_mesh_event_us by a sequence of
clear-unread calls: the timestamp field of every state after a call. -/
def clear_writes (ts : List Nat) (st : supervisor_state_t) : List Nat :=
  ((List.scanl (fun s t => handle_clear_unread t s) st ts).map
    (fun s => s.last_mesh_event_us)).tail

/-- Modelled from the spec: the external JSON codec fixed on the one line
the amended oversized-line scenario hands it; any JSON parser maps that
ping line to the ping request object. -/
def c4_demo_parse : String → Option Json := fun s =>
  if s = ping_line then some ping_request else none

/-! ## Invariants of the state-store machine -/

/-- Pending micro-operation lists at an operation boundary: what remains
is a compiled suffix of the program. -/
inductive AtRest : List MicroOp → Prop where
  | nil : AtRest []
  | cons (op : SupvOp) (rest : List MicroOp) :
      AtRest rest → AtRest (compileOp op ++ rest)

/-- Remaining micro operations of a mutation critical section: some field
writes, then the release, then a compiled suffix. -/
def InMut (pending : List MicroOp) : Prop :=
  ∃ (fs : List (supervisor_state_t → supervisor_state_t)) (rest : List MicroOp),
    pending = fs.map MicroOp.applyW ++ MicroOp.release :: rest ∧
    AtRest rest

/-- Remaining micro operations of a snapshot critical section, together
with the fact that performing the remaining copies against the current
shared record turns the local buffer into exactly that record. -/
def InSnap (pending : List MicroOp) (buf shared : supervisor_state_t) : Prop :=
  ∃ (gs : List (supervisor_state_t → supervisor_state_t → supervisor_state_t))
    (rest : List MicroOp),
    pending = gs.map MicroOp.copyF ++ MicroOp.finish :: MicroOp.release :: rest ∧
    AtRest rest ∧ gs.foldl (fun b g => g b shared) buf = shared

/-- Invariant of one execution context: every snapshot it has returned is
a historical state; while it holds the mutex it is inside one critical
section (and a snapshotting holder is copying a historical state); while
it does not hold the mutex its pending list sits at an operation
boundary. -/
def TInv (holding : Prop) (t : ThreadState) (shared : supervisor_state_t)
    (hist : List supervisor_state_t) : Prop :=
  (∀ r ∈ t.results, r ∈ hist) ∧
  (holding → InMut t.pending ∨ (InSnap t.pending t.buf shared ∧ shared ∈ hist)) ∧
  (¬holding → AtRest t.pending)

/-- Whole-machine invariant: at quiescent points the shared record is a
historical state, and both contexts satisfy their local invariant. -/
def MachineInv (c : MachineConfig) : Prop :=
  (c.lockOwner = none → c.shared ∈ c.hist) ∧
  ∀ i : Bool, TInv (c.lockOwner = some i) (c.thr i) c.shared c.hist

/-! ## Helper lemmas -/

theorem process_command_no_string_cmd (root : Json) (st : supervisor_state_t)
    (now_us second_us : Nat)
    (h : cJSON_IsString (cJSON_GetObjectItemCaseSensitive root "cmd") = false) :
    process_command root st now_us second_us = (st, []) := by
  unfold process_command
  cases hc : cJSON_GetObjectItemCaseSensitive root "cmd" with
  | none => rfl
  | some v =>
    cases v with
    | jstr s => rw [hc] at h; simp [cJSON_IsString] at h
    | null => rfl
    | jbool b => rfl
    | jnum q => rfl
    | jarr a => rfl
    | jobj o => rfl

/-- Claim C1: a delivered line that fails to parse, or parses to a value
with no cmd field of string type, produces no wire output and leaves the
state unchanged. -/
theorem C1_malformed_or_cmdless_line_silent
    (parse : String → Option Json) (line : String) (st : supervisor_state_t)
    (now_us second_us : Nat)
    (h : parse line = none ∨
      ∀ root, parse line = some root →
        cJSON_IsString (cJSON_GetObjectItemCaseSensitive root "cmd") = false) :
    process_line parse line st now_us second_us = (st, []) := by
  unfold process_line
  by_cases hline : line = ""
  · rw [if_pos hline]
  · rw [if_neg hline]
    cases hp : parse line with
    | none => rfl
    | some root =>
      rcases h with h | h
      · rw [hp] at h; cases h
      · have hcs := h root hp
        dsimp only
        by_cases hg : (cJSON_GetObjectItem root "cmd").isSome
        · rw [if_pos hg]
          exact process_command_no_string_cmd root st now_us second_us hcs
        · rw [if_neg hg]

theorem C1_malformed_or_cmdless_line_silent_witness :
    process_line (fun _ => none) "notjson" (supervisor_state_init 0) 1 2 =
      (supervisor_state_init 0, []) :=
  C1_malformed_or_cmdless_line_silent (fun _ => none) "notjson"
    (supervisor_state_init 0) 1 2 (Or.inl rfl)

/-- Claim C3: the reported message age is 0 when the last-event stamp is 0
or the clock reads earlier than it, and otherwise the floor of the elapsed
microseconds divided by one million, saturated at INT_MAX. -/
theorem C3_last_msg_age_spec (st : supervisor_state_t) (now_us : Nat) :
    compute_last_msg_age st now_us =
      if st.last_mesh_event_us = 0 ∨ now_us < st.last_mesh_event_us then 0
      else ((min ((now_us - st.last_mesh_event_us) / 1000000) 2147483647 : Nat) : Int) := by
  unfold compute_last_msg_age INT_MAX
  split
  · rfl
  · dsimp only
    rw [Nat.min_def]
    split <;> split <;> omega

/-- Claim C5: a request whose cmd string names none of the five commands
mutates nothing and is answered by exactly the unknown_cmd error envelope
with the optional id. -/
theorem C5_unknown_cmd_reply (root : Json) (st : supervisor_state_t)
    (now_us second_us : Nat) (cmd : String)
    (hc : cJSON_GetObjectItemCaseSensitive root "cmd" = some (.jstr cmd))
    (h1 : cmd ≠ "get_status") (h2 : cmd ≠ "get_switches")
    (h3 : cmd ≠ "clear_unread") (h4 : cmd ≠ "arm_poweroff") (h5 : cmd ≠ "ping") :
    process_command root st now_us second_us =
      (st, [mkObj (id_field (extract_id root) ++
        [("ok", .jbool false), ("error", .jstr "unknown_cmd")])]) := by
  unfold process_command
  rw [hc]
  dsimp only
  unfold process_dispatch send_error_reply
  rw [if_neg h1, if_neg h2, if_neg h3, if_neg h4, if_neg h5]

theorem C5_unknown_cmd_reply_witness :
    process_command frob_request (supervisor_state_init 0) 1 2 =
      (supervisor_state_init 0,
       [mkObj [("id", Json.jstr "z"), ("ok", Json.jbool false),
               ("error", Json.jstr "unknown_cmd")]]) :=
  (C5_unknown_cmd_reply frob_request (supervisor_state_init 0) 1 2 "frobnicate"
    (by decide) (by decide) (by decide) (by decide) (by decide) (by decide)).trans
    (by rfl)

/-- Claim C6: clear_unread changes exactly unread_ext and the mesh-event
timestamp, arm_poweroff changes exactly the poweroff flag, and every
dispatch whose cmd is not one of those two leaves the state unchanged. -/
theorem C6_mutation_frame :
    (∀ now_us st, handle_clear_unread now_us st =
      { st with unread_ext := 0, last_mesh_event_us := now_us }) ∧
    (∀ st, handle_arm_poweroff st = { st with poweroff_armed := true }) ∧
    (∀ root st now_us second_us cmd,
      cJSON_GetObjectItemCaseSensitive root "cmd" = some (.jstr cmd) →
      cmd ≠ "clear_unread" → cmd ≠ "arm_poweroff" →
      (process_command root st now_us second_us).1 = st) := by
  refine ⟨fun _ _ => rfl, fun _ => rfl, ?_⟩
  intro root st now_us second_us cmd hc hcl har
  unfold process_command
  rw [hc]
  dsimp only
  unfold process_dispatch
  by_cases g1 : cmd = "get_status"
  · rw [if_pos g1]
  · rw [if_neg g1]
    by_cases g2 : cmd = "get_switches"
    · rw [if_pos g2]
    · rw [if_neg g2, if_neg hcl, if_neg har]
      by_cases g5 : cmd = "ping"
      · rw [if_pos g5]
      · rw [if_neg g5]

theorem C6_mutation_frame_witness :
    (handle_clear_unread 5 (supervisor_state_init 3) =
      { supervisor_state_init 3 with unread_ext := 0, last_mesh_event_us := 5 }) ∧
    (process_command ping_request (supervisor_state_init 3) 1 2).1 =
      supervisor_state_init 3 :=
  ⟨C6_mutation_frame.1 5 (supervisor_state_init 3),
   C6_mutation_frame.2.2 ping_request (supervisor_state_init 3) 1 2 "ping"
     (by decide) (by decide) (by decide)⟩

theorem scanl_clear_map (ts : List Nat) :
    ∀ b : supervisor_state_t,
    (List.scanl (fun s t => handle_clear_unread t s) b ts).map
      (fun s => s.last_mesh_event_us) = b.last_mesh_event_us :: ts := by
  induction ts with
  | nil => intro b; rfl
  | cons t ts ih =>
    intro b
    rw [List.scanl_cons, List.singleton_append, List.map_cons,
      ih (handle_clear_unread t b)]
    rfl

theorem clear_writes_eq (ts : List Nat) (st : supervisor_state_t) :
    clear_writes ts st = ts := by
  unfold clear_writes
  rw [scanl_clear_map ts st]
  rfl

/-- Claim C7: any non-empty sequence of clear-unread calls leaves the
unread count at 0, and the successive values written to the mesh-event
timestamp are exactly the clock readings, hence non-decreasing whenever
the clock is. -/
theorem C7_clear_unread_idempotent_monotone :
    (∀ ts st, ts ≠ [] → (clear_seq ts st).unread_ext = 0) ∧
    (∀ ts st, clear_writes ts st = ts) ∧
    (∀ ts st, List.Chain' (· ≤ ·) ts →
      List.Chain' (· ≤ ·) (clear_writes ts st)) := by
  refine ⟨?_, fun ts st => clear_writes_eq ts st, ?_⟩
  · intro ts
    induction ts with
    | nil => intro st h; exact absurd rfl h
    | cons t ts ih =>
      intro st _
      unfold clear_seq at ih ⊢
      rw [List.foldl_cons]
      cases hts : ts with
      | nil => rfl
      | cons u us =>
        rw [← hts]
        exact ih (handle_clear_unread t st) (by simp [hts])
  · intro ts st h
    rw [clear_writes_eq ts st]
    exact h

theorem C7_clear_unread_idempotent_monotone_witness :
    ((clear_seq [4, 9] (supervisor_state_init 3)).unread_ext = 0) ∧
    clear_writes [4, 9] (supervisor_state_init 3) = [4, 9] ∧
    List.Chain' (· ≤ ·) (clear_writes [4, 9] (supervisor_state_init 3)) :=
  ⟨C7_clear_unread_idempotent_monotone.1 [4, 9] (supervisor_state_init 3) (by decide),
   C7_clear_unread_idempotent_monotone.2.1 [4, 9] (supervisor_state_init 3),
   C7_clear_unread_idempotent_monotone.2.2 [4, 9] (supervisor_state_init 3)
     (by simp [List.chain'_cons])⟩

/-- Claim C2: a get_status request carrying a string id is answered by one
object echoing the id, with ok true and a status object holding exactly
the nine telemetry fields plus the six-boolean switch object. -/
theorem C2_get_status_response_shape (root : Json) (st : supervisor_state_t)
    (now_us second_us : Nat) (idStr : String)
    (hc : cJSON_GetObjectItemCaseSensitive root "cmd" = some (.jstr "get_status"))
    (hid : cJSON_GetObjectItemCaseSensitive root "id" = some (.jstr idStr)) :
    process_command root st now_us second_us =
      (st, [mkObj
        [("id", .jstr idStr),
         ("ok", .jbool true),
         ("status", mkObj
           [("battery_pct", .jnum (st.battery_pct : Rat)),
            ("pack_mv", .jnum (st.pack_mv : Rat)),
            ("pack_ma", .jnum (st.pack_ma : Rat)),
            ("mcu_temp_c", .jnum st.mcu_temp_c),
            ("unread_ext", .jnum (st.unread_ext : Rat)),
            ("last_msg_age_s", .jnum (compute_last_msg_age st now_us : Rat)),
            ("heltec", .jstr st.heltec),
            ("mcu", .jstr st.mcu),
            ("uptime_s", .jnum ((now_us / 1000000 : Nat) : Rat)),
            ("switch", mkObj
              [("lte", .jbool st.switches.lte),
               ("wifi", .jbool st.switches.wifi),
               ("bt", .jbool st.switches.bt),
               ("bridge_enable", .jbool st.switches.bridge_enable),
               ("lid_open", .jbool st.switches.lid_open),
               ("charger_online", .jbool st.switches.charger_online)])])]]) := by
  unfold process_command
  rw [hc]
  dsimp only
  unfold process_dispatch extract_id
  rw [hid, if_pos rfl]
  rfl

theorem C2_get_status_response_shape_witness :
    process_command status_request (supervisor_state_init 3) 5000000 6 =
      (supervisor_state_init 3, [mkObj
        [("id", .jstr "abc"),
         ("ok", .jbool true),
         ("status", mkObj
           [("battery_pct", .jnum 78),
            ("pack_mv", .jnum 11750),
            ("pack_ma", .jnum (-420)),
            ("mcu_temp_c", .jnum default_mcu_temp),
            ("unread_ext", .jnum 0),
            ("last_msg_age_s", .jnum 4),
            ("heltec", .jstr "ok"),
            ("mcu", .jstr "proto-0.1"),
            ("uptime_s", .jnum 5),
            ("switch", mkObj
              [("lte", .jbool true),
               ("wifi", .jbool false),
               ("bt", .jbool true),
               ("bridge_enable", .jbool true),
               ("lid_open", .jbool false),
               ("charger_online", .jbool true)])])]]) :=
  (C2_get_status_response_shape status_request (supervisor_state_init 3)
    5000000 6 "abc" (by decide) (by decide)).trans (by decide)

/-- Claim C10: when a recognised command carries an id that exists but is
not a string, the command still executes exactly as if the id were absent,
and no response object carries an id field. -/
theorem C10_nonstring_id_ignored (root : Json) (st : supervisor_state_t)
    (now_us second_us : Nat) (cmd : String)
    (hc : cJSON_GetObjectItemCaseSensitive root "cmd" = some (.jstr cmd))
    (hid : cJSON_IsString (cJSON_GetObjectItemCaseSensitive root "id") = false) :
    process_command root st now_us second_us =
      process_dispatch cmd none st now_us second_us ∧
    ∀ j ∈ (process_command root st now_us second_us).2,
      cJSON_GetObjectItemCaseSensitive j "id" = none := by
  have hex : extract_id root = none := by
    unfold extract_id
    cases he : cJSON_GetObjectItemCaseSensitive root "id" with
    | none => rfl
    | some v =>
      cases v with
      | jstr s => rw [he] at hid; simp [cJSON_IsString] at hid
      | null => rfl
      | jbool b => rfl
      | jnum q => rfl
      | jarr a => rfl
      | jobj o => rfl
  have heq : process_command root st now_us second_us =
      process_dispatch cmd none st now_us second_us := by
    unfold process_command
    rw [hc]
    dsimp only
    rw [hex]
  refine ⟨heq, ?_⟩
  rw [heq]
  unfold process_dispatch
  split_ifs <;>
    intro j hj <;>
    simp only [List.mem_singleton] at hj <;>
    subst hj <;>
    rfl

theorem C10_nonstring_id_ignored_witness :
    process_command ping_request_numeric_id (supervisor_state_init 0) 1 2 =
      process_dispatch "ping" none (supervisor_state_init 0) 1 2 ∧
    ∀ j ∈ (process_command ping_request_numeric_id (supervisor_state_init 0) 1 2).2,
      cJSON_GetObjectItemCaseSensitive j "id" = none :=
  C10_nonstring_id_ignored ping_request_numeric_id (supervisor_state_init 0) 1 2
    "ping" (by decide) (by decide)

/-! ## Framer lemmas -/

theorem uart_step_regular (acc : FramerAcc) (b : Char) (hb1 : b ≠ '\r')
    (hb2 : b ≠ '\n') (hlen : acc.buf.length + 1 < SUPV_LINE_BUF) :
    uart_reader_step acc b = { acc with buf := acc.buf ++ [b] } := by
  unfold uart_reader_step
  rw [if_neg hb1, if_neg hb2, if_neg (by omega)]

theorem uart_step_overflow (acc : FramerAcc) (b : Char) (hb1 : b ≠ '\r')
    (hb2 : b ≠ '\n') (hlen : acc.buf.length + 1 ≥ SUPV_LINE_BUF) :
    uart_reader_step acc b = { acc with buf := [], overflows := acc.overflows + 1 } := by
  unfold uart_reader_step
  rw [if_neg hb1, if_neg hb2, if_pos hlen]

theorem uart_step_newline (acc : FramerAcc) :
    uart_reader_step acc '\n' =
      { acc with
        buf := [],
        lines := acc.lines ++ (if acc.buf.length > 0 then [acc.buf] else []) } := by
  unfold uart_reader_step
  rw [if_neg (by decide), if_pos rfl]

theorem uart_fold_regular (l : List Char) :
    ∀ acc : FramerAcc, (∀ b ∈ l, b ≠ '\r' ∧ b ≠ '\n') →
    acc.buf.length + l.length ≤ 511 →
    List.foldl uart_reader_step acc l = { acc with buf := acc.buf ++ l } := by
  induction l with
  | nil => intro acc _ _; simp
  | cons b l ih =>
    intro acc h hlen
    have hb := h b (List.mem_cons_self b l)
    rw [List.foldl_cons,
      uart_step_regular acc b hb.1 hb.2 (by simp at hlen; simp [SUPV_LINE_BUF]; omega),
      ih _ (fun x hx => h x (List.mem_cons_of_mem b hx)) (by simp at hlen ⊢; omega)]
    simp

theorem replicate_a_regular (k : Nat) :
    ∀ b ∈ (List.replicate k 'a' : List Char), b ≠ '\r' ∧ b ≠ '\n' := by
  intro b hb
  rw [List.eq_of_mem_replicate hb]
  exact ⟨by decide, by decide⟩

theorem c4_frames :
    uart_reader_frames c4_input =
      { buf := [], lines := [List.replicate 88 'a', ping_chars], overflows := 1 } := by
  have h600 : (List.replicate 600 'a' : List Char) =
      List.replicate 511 'a' ++ 'a' :: List.replicate 88 'a' := by
    rw [show (600 : Nat) = 511 + (1 + 88) from rfl, List.replicate_add, List.replicate_add]
    rfl
  have hping : ∀ b ∈ ping_chars, b ≠ '\r' ∧ b ≠ '\n' := by decide
  have s1 : List.foldl uart_reader_step { buf := [], lines := [], overflows := 0 }
      (List.replicate 511 'a') =
      { buf := List.replicate 511 'a', lines := [], overflows := 0 } := by
    rw [uart_fold_regular _ _ (replicate_a_regular 511)
      (by simp only [List.length_replicate, List.length_nil]; omega)]
    simp only [List.nil_append]
  have s2 : uart_reader_step
      { buf := List.replicate 511 'a', lines := [], overflows := 0 } 'a' =
      { buf := [], lines := [], overflows := 1 } := by
    rw [uart_step_overflow _ _ (by decide) (by decide)
      (by simp only [List.length_replicate, SUPV_LINE_BUF]; omega)]
  have s3 : List.foldl uart_reader_step { buf := [], lines := [], overflows := 1 }
      (List.replicate 88 'a') =
      { buf := List.replicate 88 'a', lines := [], overflows := 1 } := by
    rw [uart_fold_regular _ _ (replicate_a_regular 88)
      (by simp only [List.length_replicate, List.length_nil]; omega)]
    simp only [List.nil_append]
  have s4 : uart_reader_step
      { buf := List.replicate 88 'a', lines := [], overflows := 1 } '\n' =
      { buf := [], lines := [List.replicate 88 'a'], overflows := 1 } := by
    rw [uart_step_newline]
    simp only [List.length_replicate, List.nil_append]
    norm_num
  have s5 : List.foldl uart_reader_step
      { buf := [], lines := [List.replicate 88 'a'], overflows := 1 } ping_chars =
      { buf := ping_chars, lines := [List.replicate 88 'a'], overflows := 1 } := by
    rw [uart_fold_regular _ _ hping (by decide)]
    simp only [List.nil_append]
  have s6 : uart_reader_step
      { buf := ping_chars, lines := [List.replicate 88 'a'], overflows := 1 } '\n' =
      { buf := [], lines := [List.replicate 88 'a', ping_chars], overflows := 1 } := by
    rw [uart_step_newline]
    simp [ping_chars]
  unfold uart_reader_frames c4_input
  rw [h600]
  simp only [List.foldl_append, List.foldl_cons, List.foldl_nil]
  rw [s1, s2, s3, s4, s5, s6]

/-- Claim C4 counterexample part: the claim asserts the newline ending an
oversized line is always consumed silently, so that 600 arbitrary
non-newline bytes followed by one newline never produce a response.  On
this concrete 600-byte line (512 letters a, then a complete 88-byte ping
request) the framer drops only the first 512 bytes, the remaining 88
bytes are delivered as a line, and a response is produced. -/
theorem c4_cx_frames :
    uart_reader_frames c4_cx_input =
      { buf := [], lines := [c4_cx_tail_chars], overflows := 1 } := by
  have h512 : (List.replicate 512 'a' : List Char) =
      List.replicate 511 'a' ++ ['a'] := by
    rw [show (512 : Nat) = 511 + 1 from rfl, List.replicate_add]
    rfl
  have htail : ∀ b ∈ c4_cx_tail_chars, b ≠ '\r' ∧ b ≠ '\n' := by
    intro b hb
    unfold c4_cx_tail_chars at hb
    rcases List.mem_append.1 hb with hb | hb
    · rcases List.mem_append.1 hb with hb | hb
      · exact (by decide : ∀ x ∈ "\x7b\"cmd\":\"ping\",\"id\":\"".toList,
          x ≠ '\r' ∧ x ≠ '\n') b hb
      · rw [List.eq_of_mem_replicate hb]
        exact ⟨by decide, by decide⟩
    · exact (by decide : ∀ x ∈ "\"\x7d".toList, x ≠ '\r' ∧ x ≠ '\n') b hb
  have hlen : c4_cx_tail_chars.length = 88 := by
    unfold c4_cx_tail_chars
    simp only [List.length_append, List.length_replicate]
    decide
  have s1 : List.foldl uart_reader_step { buf := [], lines := [], overflows := 0 }
      (List.replicate 511 'a') =
      { buf := List.replicate 511 'a', lines := [], overflows := 0 } := by
    rw [uart_fold_regular _ _ (replicate_a_regular 511)
      (by simp only [List.length_replicate, List.length_nil]; omega)]
    simp only [List.nil_append]
  have s2 : uart_reader_step
      { buf := List.replicate 511 'a', lines := [], overflows := 0 } 'a' =
      { buf := [], lines := [], overflows := 1 } := by
    rw [uart_step_overflow _ _ (by decide) (by decide)
      (by simp only [List.length_replicate, SUPV_LINE_BUF]; omega)]
  have s3 : List.foldl uart_reader_step { buf := [], lines := [], overflows := 1 }
      c4_cx_tail_chars =
      { buf := c4_cx_tail_chars, lines := [], overflows := 1 } := by
    rw [uart_fold_regular _ _ htail (by rw [hlen]; simp)]
    simp only [List.nil_append]
  have s4 : uart_reader_step
      { buf := c4_cx_tail_chars, lines := [], overflows := 1 } '\n' =
      { buf := [], lines := [c4_cx_tail_chars], overflows := 1 } := by
    rw [uart_step_newline]
    rw [if_pos (by rw [hlen]; omega)]
    simp
  unfold uart_reader_frames c4_cx_input
  rw [h512]
  simp only [List.foldl_append, List.foldl_cons, List.foldl_nil]
  rw [s1, s2, s3, s4]

/-- Claim C4 (amended): on overflow the framer discards the buffered
bytes, logs one overflow, and resumes accumulating with the next byte, so
the newline delivers whatever followed the overflow point as an ordinary
line.  The 600-letter-a line therefore produces no response only because
its post-overflow remainder (88 letters a) fails to parse; a well-formed
command line after it is processed normally. -/
theorem C4_overflow_resume_amended
    (parse : String → Option Json) (clock : Nat → Nat × Nat)
    (st : supervisor_state_t)
    (h1 : parse (String.mk (List.replicate 88 'a')) = none)
    (h2 : parse ping_line = some ping_request) :
    uart_reader_run parse clock c4_input st =
      (st, [mkObj [("ok", Json.jbool true),
        ("uptime_s", Json.jnum (((clock 1).2 / 1000000 : Nat) : Rat))]], 1) := by
  have e1 : process_line parse (String.mk (List.replicate 88 'a')) st
      (clock 0).1 (clock 0).2 = (st, []) := by
    unfold process_line
    rw [if_neg (by decide), h1]
  have e2 : process_line parse (String.mk ping_chars) st
      (clock 1).1 (clock 1).2 =
      (st, [mkObj [("ok", Json.jbool true),
        ("uptime_s", Json.jnum (((clock 1).2 / 1000000 : Nat) : Rat))]]) := by
    unfold process_line
    rw [if_neg (by decide)]
    rw [show String.mk ping_chars = ping_line from rfl, h2]
    rfl
  unfold uart_reader_run
  rw [c4_frames]
  dsimp only
  unfold run_lines
  rw [e1]
  dsimp only
  unfold run_lines
  rw [e2]
  rfl

theorem C4_overflow_resume_amended_witness :
    uart_reader_run c4_demo_parse (fun i => (3000000 * (i + 1), 3000000 * (i + 1) + 5))
      c4_input (supervisor_state_init 0) =
      (supervisor_state_init 0,
       [mkObj [("ok", Json.jbool true), ("uptime_s", Json.jnum 6)]], 1) :=
  (C4_overflow_resume_amended c4_demo_parse
    (fun i => (3000000 * (i + 1), 3000000 * (i + 1) + 5))
    (supervisor_state_init 0) (by decide) (by decide)).trans (by decide)

/-- Claim C4 counterexample: a line of 600 non-newline bytes followed by
one newline that does produce a response, because the 88 bytes after the
overflow point form a complete ping request that is delivered as a line
of its own.  This refutes the claim that the terminating newline of an
oversized line is always consumed silently and that such a line never
produces a response. -/
theorem C4_oversized_line_counterexample :
    c4_cx_input = (List.replicate 512 'a' ++ c4_cx_tail_chars) ++ ['\n'] ∧
    (List.replicate 512 'a' ++ c4_cx_tail_chars).length = 600 ∧
    (∀ b ∈ List.replicate 512 'a' ++ c4_cx_tail_chars, b ≠ '\n') ∧
    (uart_reader_run c4_cx_parse (fun _ => (0, 0)) c4_cx_input
      (supervisor_state_init 0)).2.1 =
      [mkObj [("id", Json.jstr (String.mk (List.replicate 66 'x'))),
              ("ok", Json.jbool true), ("uptime_s", Json.jnum 0)]] := by
  refine ⟨by unfold c4_cx_input; rw [List.append_assoc], ?_, ?_, ?_⟩
  · simp only [List.length_append, List.length_replicate, c4_cx_tail_chars]
    decide
  · intro b hb
    rcases List.mem_append.1 hb with hb | hb
    · rw [List.eq_of_mem_replicate hb]; decide
    · unfold c4_cx_tail_chars at hb
      rcases List.mem_append.1 hb with hb | hb
      · rcases List.mem_append.1 hb with hb | hb
        · exact (by decide : ∀ x ∈ "\x7b\"cmd\":\"ping\",\"id\":\"".toList,
            x ≠ '\n') b hb
        · rw [List.eq_of_mem_replicate hb]; decide
      · exact (by decide : ∀ x ∈ "\"\x7d".toList, x ≠ '\n') b hb
  · unfold uart_reader_run
    rw [c4_cx_frames]
    dsimp only
    unfold run_lines
    have e1 : process_line c4_cx_parse (String.mk c4_cx_tail_chars)
        (supervisor_state_init 0) 0 0 =
        (supervisor_state_init 0,
         [mkObj [("id", Json.jstr (String.mk (List.replicate 66 'x'))),
                 ("ok", Json.jbool true), ("uptime_s", Json.jnum 0)]]) := by
      rfl
    rw [e1]
    rfl

/-! ## Startup interleaving lemmas -/

theorem interleaves_nil_left {α : Type} :
    ∀ {l te tr : List α}, Interleaves l te tr → l = [] → tr = te := by
  intro l te tr h
  induction h with
  | nil => intro _; rfl
  | left h ih => intro hx; cases hx
  | right h ih => intro hl; rw [ih hl]

theorem interleaves_cons_split {α : Type} :
    ∀ {l te tr : List α}, Interleaves l te tr →
    ∀ {x : α} {ms : List α}, l = x :: ms →
    ∃ te1 te2 tr2, te = te1 ++ te2 ∧ tr = te1 ++ x :: tr2 ∧
      Interleaves ms te2 tr2 := by
  intro l te tr h
  induction h with
  | nil => intro x ms hx; cases hx
  | left h ih =>
    intro x ms hx
    injection hx with hx1 hx2
    subst hx1
    subst hx2
    exact ⟨[], _, _, by simp, by simp, h⟩
  | right h ih =>
    intro x ms hx
    obtain ⟨te1, te2, tr2, hte, htr, hint⟩ := ih hx
    rename_i y xs ys zs
    exact ⟨y :: te1, te2, tr2, by rw [hte]; rfl, by rw [htr]; rfl, hint⟩

/-- Claim C9 (amended): in every startup trace, one switch event is
emitted, it reflects the initial switch configuration, and it comes after
state and transport initialisation and after both task creations; nothing
places it before the created tasks first run. -/
theorem C9_switch_event_emitted_once_amended (boot_us : Nat)
    (te tr : List SysEvent)
    (hte : ∀ e ∈ te, isEmit e = false)
    (h : Interleaves (app_main_program boot_us) te tr) :
    ∃ pre post,
      tr = pre ++ SysEvent.emitSwitch
        (send_switch_event (supervisor_state_init boot_us).switches) :: post ∧
      (∀ e ∈ pre, isEmit e = false) ∧
      (∀ e ∈ post, isEmit e = false) ∧
      SysEvent.createReader ∈ pre ∧
      SysEvent.createTelemetry ∈ pre := by
  obtain ⟨a1, r1, t1, e1, q1, h1⟩ := interleaves_cons_split h rfl
  obtain ⟨a2, r2, t2, e2, q2, h2⟩ := interleaves_cons_split h1 rfl
  obtain ⟨a3, r3, t3, e3, q3, h3⟩ := interleaves_cons_split h2 rfl
  obtain ⟨a4, r4, t4, e4, q4, h4⟩ := interleaves_cons_split h3 rfl
  obtain ⟨a5, r5, t5, e5, q5, h5⟩ := interleaves_cons_split h4 rfl
  have ht5 : t5 = r5 := interleaves_nil_left h5 rfl
  subst ht5
  subst q5
  subst q4
  subst q3
  subst q2
  subst q1
  subst e5
  subst e4
  subst e3
  subst e2
  subst e1
  refine ⟨a1 ++ SysEvent.stateInit :: (a2 ++ SysEvent.uartInit :: (a3 ++
      SysEvent.createReader :: (a4 ++ SysEvent.createTelemetry :: a5))), t5,
    by simp [List.append_assoc], ?_, ?_, by simp, by simp⟩
  · intro e he
    simp only [List.mem_append, List.mem_cons] at he
    rcases he with he | he | he | he | he | he | he | he | he <;>
      first
        | (subst he; rfl)
        | (exact hte e (by simp only [List.mem_append]; tauto))
  · intro e he
    exact hte e (by simp only [List.mem_append]; tauto)

theorem C9_switch_event_emitted_once_amended_witness :
    ∃ pre post,
      app_main_program 0 = pre ++ SysEvent.emitSwitch
        (send_switch_event (supervisor_state_init 0).switches) :: post ∧
      (∀ e ∈ pre, isEmit e = false) ∧
      (∀ e ∈ post, isEmit e = false) ∧
      SysEvent.createReader ∈ pre ∧
      SysEvent.createTelemetry ∈ pre :=
  C9_switch_event_emitted_once_amended 0 [] (app_main_program 0)
    (by intro e he; cases he)
    (.left (.left (.left (.left (.left .nil)))))

/-- Claim C9 counterexample: an admissible startup trace in which the
reader task first runs at position three, before the switch event, which
app_main only emits after both task creations.  The claim that the
emission occurs before either task begins running is false on this
trace. -/
theorem C9_startup_order_counterexample :
    Interleaves (app_main_program 0)
      [SysEvent.readerStarts, SysEvent.telemetryStarts] c9_trace ∧
    c9_trace.take 4 = [SysEvent.stateInit, SysEvent.uartInit,
      SysEvent.createReader, SysEvent.readerStarts] ∧
    (c9_trace.take 4).any isReaderStart = true ∧
    (c9_trace.take 4).any isEmit = false :=
  ⟨.left (.left (.left (.right (.left (.right (.left .nil)))))), rfl, rfl, rfl⟩

/-! ## State-store machine lemmas -/

theorem atRest_compileProg (p : List SupvOp) : AtRest (compileProg p) := by
  induction p with
  | nil => exact AtRest.nil
  | cons op ops ih => exact AtRest.cons op (compileProg ops) ih

theorem atRest_inv {l : List MicroOp} (h : AtRest l) :
    l = [] ∨ ∃ op rest, AtRest rest ∧ l = compileOp op ++ rest := by
  cases h with
  | nil => exact Or.inl rfl
  | cons op rest hr => exact Or.inr ⟨op, rest, hr, rfl⟩

theorem atRest_head_acquire {x : MicroOp} {l : List MicroOp}
    (h : AtRest (x :: l)) : x = MicroOp.acquire := by
  rcases atRest_inv h with h0 | ⟨op, rest2, hr2, heq⟩
  · simp at h0
  · cases op <;>
      simp only [compileOp, List.cons_append] at heq <;>
      exact (List.cons.injEq _ _ _ _ ▸ heq).1

theorem atRest_acquire_inv {rest : List MicroOp}
    (h : AtRest (MicroOp.acquire :: rest)) :
    InMut rest ∨
    ∃ rest2, rest = copy_fns.map MicroOp.copyF ++
      MicroOp.finish :: MicroOp.release :: rest2 ∧ AtRest rest2 := by
  rcases atRest_inv h with h0 | ⟨op, rest2, hr2, heq⟩
  · simp at h0
  · cases op with
    | snapshot =>
      right
      simp only [compileOp, List.cons_append, List.append_assoc] at heq
      refine ⟨rest2, ?_, hr2⟩
      have := (List.cons.injEq _ _ _ _ ▸ heq).2
      rw [this, List.nil_append]
    | clearUnread t_us =>
      left
      simp only [compileOp, List.cons_append, List.append_assoc] at heq
      refine ⟨clear_fns t_us, rest2, ?_, hr2⟩
      have := (List.cons.injEq _ _ _ _ ▸ heq).2
      rw [this, List.nil_append]
    | armPoweroff =>
      left
      simp only [compileOp, List.cons_append, List.append_assoc] at heq
      refine ⟨arm_fns, rest2, ?_, hr2⟩
      have := (List.cons.injEq _ _ _ _ ▸ heq).2
      rw [this, List.nil_append]

theorem copy_fns_fold (b s : supervisor_state_t) :
    copy_fns.foldl (fun b g => g b s) b = s := rfl

theorem machine_step_nil (c : MachineConfig) (who : Bool)
    (hp : (c.thr who).pending = []) : machine_step c who = c := by
  unfold machine_step
  rw [hp]

theorem machine_step_acquire (c : MachineConfig) (who : Bool)
    (rest : List MicroOp) (hp : (c.thr who).pending = MicroOp.acquire :: rest) :
    machine_step c who =
      if c.lockOwner = none then
        { c with
          lockOwner := some who,
          thr := Function.update c.thr who { c.thr who with pending := rest } }
      else c := by
  unfold machine_step
  rw [hp]

theorem machine_step_release (c : MachineConfig) (who : Bool)
    (rest : List MicroOp) (hp : (c.thr who).pending = MicroOp.release :: rest) :
    machine_step c who =
      if c.lockOwner = some who then
        { c with
          lockOwner := none,
          hist := c.hist ++ [c.shared],
          thr := Function.update c.thr who { c.thr who with pending := rest } }
      else c := by
  unfold machine_step
  rw [hp]

theorem machine_step_applyW (c : MachineConfig) (who : Bool)
    (f : supervisor_state_t → supervisor_state_t) (rest : List MicroOp)
    (hp : (c.thr who).pending = MicroOp.applyW f :: rest) :
    machine_step c who =
      { c with
        shared := f c.shared,
        thr := Function.update c.thr who { c.thr who with pending := rest } } := by
  unfold machine_step
  rw [hp]

theorem machine_step_copyF (c : MachineConfig) (who : Bool)
    (g : supervisor_state_t → supervisor_state_t → supervisor_state_t)
    (rest : List MicroOp)
    (hp : (c.thr who).pending = MicroOp.copyF g :: rest) :
    machine_step c who =
      { c with
        thr := Function.update c.thr who
          { c.thr who with pending := rest, buf := g (c.thr who).buf c.shared } } := by
  unfold machine_step
  rw [hp]

theorem machine_step_finish (c : MachineConfig) (who : Bool)
    (rest : List MicroOp) (hp : (c.thr who).pending = MicroOp.finish :: rest) :
    machine_step c who =
      { c with
        thr := Function.update c.thr who
          { c.thr who with
            pending := rest,
            results := (c.thr who).results ++ [(c.thr who).buf] } } := by
  unfold machine_step
  rw [hp]

theorem machineInv_step (c : MachineConfig) (who : Bool)
    (h : MachineInv c) : MachineInv (machine_step c who) := by
  obtain ⟨hq, hth⟩ := h
  obtain ⟨hres, hhold, hrest⟩ := hth who
  cases hp : (c.thr who).pending with
  | nil =>
    rw [machine_step_nil c who hp]
    exact ⟨hq, hth⟩
  | cons op rest =>
    cases op with
    | acquire =>
      rw [machine_step_acquire c who rest hp]
      by_cases hl : c.lockOwner = none
      · rw [if_pos hl]
        have hR : AtRest (MicroOp.acquire :: rest) := by
          rw [← hp]
          exact hrest (by rw [hl]; simp)
        refine ⟨fun hc => by simp at hc, fun i => ?_⟩
        dsimp only
        by_cases hi : i = who
        · subst hi
          refine ⟨?_, ?_, fun hn => absurd rfl hn⟩
          · intro r hr
            rw [Function.update_same] at hr
            exact hres r hr
          · intro _
            rw [Function.update_same]
            rcases atRest_acquire_inv hR with hm | ⟨rest2, he, hr2⟩
            · exact Or.inl hm
            · exact Or.inr ⟨⟨copy_fns, rest2, he, hr2, copy_fns_fold _ _⟩, hq hl⟩
        · rw [Function.update_noteq hi]
          refine ⟨(hth i).1, ?_, ?_⟩
          · intro he
            exact absurd (Option.some.inj he).symm hi
          · intro _
            exact (hth i).2.2 (by rw [hl]; simp)
      · rw [if_neg hl]
        exact ⟨hq, hth⟩
    | release =>
      rw [machine_step_release c who rest hp]
      by_cases hl : c.lockOwner = some who
      · rw [if_pos hl]
        have hh := hhold hl
        rw [hp] at hh
        have hrest2 : AtRest rest := by
          rcases hh with ⟨fs, rest2, heq, hr2⟩ | ⟨⟨gs, rest2, heq, hr2, hfold⟩, hsh⟩
          · cases fs with
            | nil =>
              simp only [List.map_nil, List.nil_append, List.cons.injEq] at heq
              rw [heq.2]
              exact hr2
            | cons f fs => simp at heq
          · cases gs with
            | nil => simp at heq
            | cons g gs => simp at heq
        refine ⟨fun _ => List.mem_append_right _ (by simp), fun i => ?_⟩
        dsimp only
        by_cases hi : i = who
        · subst hi
          refine ⟨?_, fun he => by simp at he, fun _ => ?_⟩
          · intro r hr
            rw [Function.update_same] at hr
            exact List.mem_append_left _ (hres r hr)
          · rw [Function.update_same]
            exact hrest2
        · rw [Function.update_noteq hi]
          refine ⟨fun r hr => List.mem_append_left _ ((hth i).1 r hr),
            fun he => by simp at he, fun _ => ?_⟩
          exact (hth i).2.2
            (by rw [hl]; intro hcc; exact hi (Option.some.inj hcc).symm)
      · rw [if_neg hl]
        exact ⟨hq, hth⟩
    | applyW f =>
      rw [machine_step_applyW c who f rest hp]
      have hl : c.lockOwner = some who := by
        by_contra hl
        have hA := hrest hl
        rw [hp] at hA
        exact absurd (atRest_head_acquire hA) (by simp)
      have hh := hhold hl
      rw [hp] at hh
      rcases hh with ⟨fs, rest2, heq, hr2⟩ | ⟨⟨gs, rest2, heq, hr2, hfold⟩, hsh⟩
      · cases fs with
        | nil => simp at heq
        | cons f0 fs =>
          simp only [List.map_cons, List.cons_append, List.cons.injEq] at heq
          obtain ⟨hf0, hrest_eq⟩ := heq
          refine ⟨fun hc => by rw [hl] at hc; simp at hc, fun i => ?_⟩
          dsimp only
          by_cases hi : i = who
          · subst hi
            refine ⟨?_, ?_, fun hn => absurd hl hn⟩
            · intro r hr
              rw [Function.update_same] at hr
              exact hres r hr
            · intro _
              rw [Function.update_same]
              exact Or.inl ⟨fs, rest2, hrest_eq, hr2⟩
          · rw [Function.update_noteq hi]
            refine ⟨(hth i).1, ?_, ?_⟩
            · intro he
              rw [hl] at he
              exact absurd (Option.some.inj he).symm hi
            · intro _
              exact (hth i).2.2
                (by rw [hl]; intro hcc; exact hi (Option.some.inj hcc).symm)
      · cases gs with
        | nil => simp at heq
        | cons g gs => simp at heq
    | copyF g =>
      rw [machine_step_copyF c who g rest hp]
      have hl : c.lockOwner = some who := by
        by_contra hl
        have hA := hrest hl
        rw [hp] at hA
        exact absurd (atRest_head_acquire hA) (by simp)
      have hh := hhold hl
      rw [hp] at hh
      rcases hh with ⟨fs, rest2, heq, hr2⟩ | ⟨⟨gs, rest2, heq, hr2, hfold⟩, hsh⟩
      · cases fs with
        | nil => simp at heq
        | cons f0 fs => simp at heq
      · cases gs with
        | nil => simp at heq
        | cons g0 gs =>
          simp only [List.map_cons, List.cons_append, List.cons.injEq] at heq
          obtain ⟨hg0, hrest_eq⟩ := heq
          refine ⟨fun hc => by rw [hl] at hc; simp at hc, fun i => ?_⟩
          dsimp only
          by_cases hi : i = who
          · subst hi
            refine ⟨?_, ?_, fun hn => absurd hl hn⟩
            · intro r hr
              rw [Function.update_same] at hr
              exact hres r hr
            · intro _
              rw [Function.update_same]
              refine Or.inr ⟨⟨gs, rest2, hrest_eq, hr2, ?_⟩, hsh⟩
              have hgg : g = g0 := by injection hg0
              dsimp only
              rw [hgg]
              simp only [List.foldl_cons] at hfold
              exact hfold
          · rw [Function.update_noteq hi]
            refine ⟨(hth i).1, ?_, ?_⟩
            · intro he
              rw [hl] at he
              exact absurd (Option.some.inj he).symm hi
            · intro _
              exact (hth i).2.2
                (by rw [hl]; intro hcc; exact hi (Option.some.inj hcc).symm)
    | finish =>
      rw [machine_step_finish c who rest hp]
      have hl : c.lockOwner = some who := by
        by_contra hl
        have hA := hrest hl
        rw [hp] at hA
        exact absurd (atRest_head_acquire hA) (by simp)
      have hh := hhold hl
      rw [hp] at hh
      rcases hh with ⟨fs, rest2, heq, hr2⟩ | ⟨⟨gs, rest2, heq, hr2, hfold⟩, hsh⟩
      · cases fs with
        | nil => simp at heq
        | cons f0 fs => simp at heq
      · cases gs with
        | cons g0 gs => simp at heq
        | nil =>
          simp only [List.map_nil, List.nil_append, List.cons.injEq] at heq
          have hbuf : (c.thr who).buf = c.shared := hfold
          refine ⟨fun hc => by rw [hl] at hc; simp at hc, fun i => ?_⟩
          dsimp only
          by_cases hi : i = who
          · subst hi
            refine ⟨?_, ?_, fun hn => absurd hl hn⟩
            · intro r hr
              rw [Function.update_same] at hr
              dsimp only at hr
              rcases List.mem_append.1 hr with hr | hr
              · exact hres r hr
              · rw [List.mem_singleton] at hr
                rw [hr, hbuf]
                exact hsh
            · intro _
              rw [Function.update_same]
              refine Or.inl ⟨[], rest2, ?_, hr2⟩
              rw [heq.2]
              rfl
          · rw [Function.update_noteq hi]
            refine ⟨(hth i).1, ?_, ?_⟩
            · intro he
              rw [hl] at he
              exact absurd (Option.some.inj he).symm hi
            · intro _
              exact (hth i).2.2
                (by rw [hl]; intro hcc; exact hi (Option.some.inj hcc).symm)

theorem machineInv_run (ws : List Bool) :
    ∀ c : MachineConfig, MachineInv c → MachineInv (machine_run c ws) := by
  induction ws with
  | nil => intro c h; exact h
  | cons w ws ih =>
    intro c h
    exact ih (machine_step c w) (machineInv_step c w h)

theorem machineInv_init (p0 p1 : List SupvOp) (init b0 b1 : supervisor_state_t) :
    MachineInv (machine_init p0 p1 init b0 b1) := by
  refine ⟨fun _ => by simp [machine_init], fun i => ?_⟩
  refine ⟨?_, ?_, ?_⟩
  · intro r hr
    cases i <;> simp [machine_init] at hr
  · intro he
    simp [machine_init] at he
  · intro _
    cases i <;> exact atRest_compileProg _

/-- Claim C8: for every pair of programs over the state store, every pair
of junk-filled snapshot buffers and every schedule interleaving the two
contexts at the granularity of single field accesses, each snapshot a
context returns equals a state in the ghost mutation history — the shared
record at a critical-section boundary — so no snapshot ever shows a
partially updated record. -/
theorem C8_snapshot_atomicity (p0 p1 : List SupvOp)
    (init b0 b1 : supervisor_state_t) (sched : List Bool) (i : Bool)
    (r : supervisor_state_t)
    (hr : r ∈ ((machine_run (machine_init p0 p1 init b0 b1) sched).thr i).results) :
    r ∈ (machine_run (machine_init p0 p1 init b0 b1) sched).hist :=
  (((machineInv_run sched (machine_init p0 p1 init b0 b1)
    (machineInv_init p0 p1 init b0 b1)).2 i).1) r hr

theorem C8_snapshot_atomicity_witness :
    supervisor_state_init 3 ∈
      ((machine_run c8_demo_config c8_demo_sched).thr true).results ∧
    supervisor_state_init 3 ∈ (machine_run c8_demo_config c8_demo_sched).hist :=
  ⟨by decide,
   C8_snapshot_atomicity [SupvOp.clearUnread 7] [SupvOp.snapshot]
     (supervisor_state_init 3) c8_demo_junk c8_demo_junk c8_demo_sched true
     (supervisor_state_init 3) (by decide)⟩
